import Mathlib

/-!
# swagger-nodejs: the Express application of `server.js`

`server.js` builds one Express application: two Swagger UI middlewares mounted
under `/api-docs`, the JSON body parser, nine route registrations, and a call to
`listen`.  The development below embeds

* the layer stack in registration order, with Express's default matching
  (case-insensitive literals, one optional trailing slash, `:name` matching one
  non-empty segment that must percent-decode, `app.use` mounts matching a
  prefix, `app.get` also serving `HEAD`);
* the constants of `swaggerOptions` and of `app.listen`;
* the company and user handlers of `./api/company` and `./api/user`, which
  `server.js` only imports, modelled from the specification.

Paths are URL pathnames (the query string is already removed).  What happens
inside the third-party middlewares is not modelled.
-/

namespace SwaggerNodejs

/-! ## Requests, handlers and layers -/

/-- HTTP request methods. -/
inductive Verb where
  | GET | HEAD | POST | PUT | DELETE | PATCH | OPTIONS
  deriving DecidableEq, Repr

/-- The nine handlers `server.js` imports from `./api/company` and `./api/user`. -/
inductive Handler where
  | getAllCompanies | getSingleCompany | addNewCompany | updateCompany
  | deleteCompany | searchCompany | register | login | deleteUser
  deriving DecidableEq, Repr

/-- The third-party middlewares `server.js` installs with `app.use`. -/
inductive Middleware where
  | swaggerUiServe | swaggerUiSetup | bodyParserJson
  deriving DecidableEq, Repr

/-- One entry of the application's layer stack: `app.use(mount, mw)`
(`app.use(mw)` is the mount `/`) or `app.VERB(pattern, handler)`. -/
inductive Layer where
  | use (mount : String) (mw : Middleware)
  | route (verb : Verb) (pattern : String) (handler : Handler)
  deriving DecidableEq, Repr

/-- An inbound request: its method and the pathname of its URL. -/
structure Request where
  verb : Verb
  path : String
  deriving DecidableEq, Repr

/-- The layer stack of `server.js`, in registration order (lines 37, 64, 83,
104, 133, 162, 185, 208, 243, 279, 307). -/
def stack : List Layer :=
  [ Layer.use "/api-docs" Middleware.swaggerUiServe,
    Layer.use "/api-docs" Middleware.swaggerUiSetup,
    Layer.use "/" Middleware.bodyParserJson,
    Layer.route Verb.GET "/api/company" Handler.getAllCompanies,
    Layer.route Verb.GET "/api/company/:id" Handler.getSingleCompany,
    Layer.route Verb.POST "/api/company" Handler.addNewCompany,
    Layer.route Verb.PUT "/api/company/:id" Handler.updateCompany,
    Layer.route Verb.DELETE "/api/company/:id" Handler.deleteCompany,
    Layer.route Verb.DELETE "/api/search/company/:name" Handler.searchCompany,
    Layer.route Verb.POST "/api/register" Handler.register,
    Layer.route Verb.POST "/api/login" Handler.login,
    Layer.route Verb.DELETE "/api/user/:email" Handler.deleteUser ]

/-! ## Express path matching -/

/-- One segment of a route pattern: literal text or a named parameter. -/
inductive PatSeg where
  | lit (text : List Char)
  | param (name : List Char)
  deriving DecidableEq, Repr

/-- Cut a character sequence at every `/`; the pieces never contain `/`. -/
def splitSlash : List Char → List (List Char)
  | [] => [[]]
  | c :: cs =>
    if c = '/' then [] :: splitSlash cs
    else match splitSlash cs with
      | [] => [[c]]
      | seg :: segs => (c :: seg) :: segs

/-- A pattern segment starting with `:` is a parameter, anything else a literal. -/
def toPatSeg : List Char → PatSeg
  | ':' :: name => PatSeg.param name
  | text => PatSeg.lit text

/-- The segments of a route pattern such as `/api/company/:id`. -/
def compilePath (pattern : String) : List PatSeg :=
  ((splitSlash pattern.data).drop 1).map toPatSeg

/-- Literal text is compared ignoring ASCII case (`case sensitive routing` is off). -/
def eqIgnoreCase (a b : List Char) : Bool :=
  a.map Char.toLower == b.map Char.toLower

/-- The regular expression of one segment: a literal matches its own text, a
parameter any non-empty segment. -/
def segMatch : PatSeg → List Char → Bool
  | PatSeg.lit text, seg => eqIgnoreCase text seg
  | PatSeg.param _, seg => !seg.isEmpty

/-- Whole-path test of a route's regular expression: every pattern segment
matches in turn, and at most one empty segment (a trailing slash, `strict
routing` being off) is left. -/
def segsMatch : List PatSeg → List (List Char) → Bool
  | [], [] => true
  | [], [[]] => true
  | p :: ps, seg :: segs => segMatch p seg && segsMatch ps segs
  | _, _ => false

/-- Prefix test of a mount's regular expression: the pattern segments match the
leading segments. -/
def prefixMatch : List PatSeg → List (List Char) → Bool
  | [], _ => true
  | p :: ps, seg :: segs => segMatch p seg && prefixMatch ps segs
  | _ :: _, [] => false

/-- The raw texts captured by the parameters of a pattern. -/
def captures : List PatSeg → List (List Char) → List (List Char)
  | PatSeg.param _ :: ps, seg :: segs => seg :: captures ps segs
  | PatSeg.lit _ :: ps, _ :: segs => captures ps segs
  | _, _ => []

/-! ## Percent-decoding of captured parameters

Express hands every captured parameter to `decodeURIComponent`; a `URIError`
becomes a 400 error held by the router. -/

/-- Value of a hexadecimal digit. -/
def hexVal (c : Char) : Option Nat :=
  if 48 ≤ c.toNat ∧ c.toNat ≤ 57 then some (c.toNat - 48)
  else if 65 ≤ c.toNat ∧ c.toNat ≤ 70 then some (c.toNat - 55)
  else if 97 ≤ c.toNat ∧ c.toNat ≤ 102 then some (c.toNat - 87)
  else none

/-- A character taken as it stands, or an octet written as `%XX`. -/
inductive Tok where
  | char (c : Char)
  | octet (b : Nat)
  deriving DecidableEq, Repr

/-- Resolve the `%XX` escapes; `none` when a `%` is not followed by two
hexadecimal digits. -/
def unescape : List Char → Option (List Tok)
  | [] => some []
  | c :: cs =>
    if c = '%' then
      match cs with
      | a :: b :: rest =>
        match hexVal a, hexVal b with
        | some x, some y => (unescape rest).map (fun ts => Tok.octet (16 * x + y) :: ts)
        | _, _ => none
      | _ => none
    else (unescape cs).map (fun ts => Tok.char c :: ts)

/-- Progress through a UTF-8 sequence: between code points, or `need` more
octets expected, the next one within `lo..hi`, with `acc` the bits read. -/
inductive Utf8State where
  | start
  | cont (need lo hi acc : Nat)
  deriving DecidableEq, Repr

/-- Read escaped octets as well-formed UTF-8 (no overlong form, no surrogate,
nothing above U+10FFFF); `none` on an ill-formed sequence. -/
def utf8Decode : Utf8State → List Tok → Option (List Char)
  | Utf8State.start, [] => some []
  | Utf8State.cont _ _ _ _, [] => none
  | Utf8State.start, Tok.char c :: ts => (utf8Decode Utf8State.start ts).map (fun cs => c :: cs)
  | Utf8State.cont _ _ _ _, Tok.char _ :: _ => none
  | Utf8State.start, Tok.octet b :: ts =>
    if b < 0x80 then (utf8Decode Utf8State.start ts).map (fun cs => Char.ofNat b :: cs)
    else if 0xC2 ≤ b ∧ b ≤ 0xDF then utf8Decode (Utf8State.cont 1 0x80 0xBF (b - 0xC0)) ts
    else if b = 0xE0 then utf8Decode (Utf8State.cont 2 0xA0 0xBF 0) ts
    else if b = 0xED then utf8Decode (Utf8State.cont 2 0x80 0x9F 13) ts
    else if 0xE1 ≤ b ∧ b ≤ 0xEF then utf8Decode (Utf8State.cont 2 0x80 0xBF (b - 0xE0)) ts
    else if b = 0xF0 then utf8Decode (Utf8State.cont 3 0x90 0xBF 0) ts
    else if 0xF1 ≤ b ∧ b ≤ 0xF3 then utf8Decode (Utf8State.cont 3 0x80 0xBF (b - 0xF0)) ts
    else if b = 0xF4 then utf8Decode (Utf8State.cont 3 0x80 0x8F 4) ts
    else none
  | Utf8State.cont need lo hi acc, Tok.octet b :: ts =>
    if lo ≤ b ∧ b ≤ hi then
      if need ≤ 1 then
        (utf8Decode Utf8State.start ts).map (fun cs => Char.ofNat (acc * 64 + (b - 0x80)) :: cs)
      else utf8Decode (Utf8State.cont (need - 1) 0x80 0xBF (acc * 64 + (b - 0x80))) ts
    else none

/-- JavaScript's `decodeURIComponent`: the decoded text, or `none` for a
`URIError`. -/
def decodeURIComponent (s : List Char) : Option (List Char) :=
  (unescape s).bind (utf8Decode Utf8State.start)

/-- Express's `decode_param`: an empty capture is kept, any other is decoded. -/
def decodeParam (val : List Char) : Option (List Char) :=
  if val.isEmpty then some val else decodeURIComponent val

/-- Result of matching a layer against a pathname: no match, a match, or a match
whose parameter fails to decode (`URIError`, status 400). -/
inductive Match where
  | no | yes | badParam
  deriving DecidableEq, Repr

/-- Outcome of `Layer.match` once the regular expression test is known: on
success every capture is decoded. -/
def matchResult (regexpOk : Bool) (caps : List (List Char)) : Match :=
  if regexpOk then
    if caps.all (fun v => (decodeParam v).isSome) then Match.yes else Match.badParam
  else Match.no

/-- Match a route pattern against a pathname. -/
def pathMatch (pattern path : String) : Match :=
  match splitSlash path.data with
  | [] :: segs =>
    matchResult (segsMatch (compilePath pattern) segs) (captures (compilePath pattern) segs)
  | _ => Match.no

/-- Match an `app.use` mount against a pathname.  The mount `/` matches all. -/
def mountMatch (mount path : String) : Match :=
  if mount = "/" then Match.yes
  else match splitSlash path.data with
    | [] :: segs =>
      matchResult (prefixMatch (compilePath mount) segs) (captures (compilePath mount) segs)
    | _ => Match.no

/-- A route registered for `routeVerb` serves that verb, and a `GET` route also
serves `HEAD` (no `HEAD` route is registered in `server.js`). -/
def handlesMethod (routeVerb reqVerb : Verb) : Bool :=
  reqVerb == routeVerb || (reqVerb == Verb.HEAD && routeVerb == Verb.GET)

/-- Match a layer against a pathname. -/
def Layer.matchPath (path : String) : Layer → Match
  | Layer.use mount _ => mountMatch mount path
  | Layer.route _ pattern _ => pathMatch pattern path

/-- The handler of a route layer. -/
def Layer.handler? : Layer → Option Handler
  | Layer.use _ _ => none
  | Layer.route _ _ handler => some handler

/-- Once the path of a layer matches: a middleware runs for every verb, a route
only for a verb it serves. -/
def Layer.runsFor (verb : Verb) : Layer → Bool
  | Layer.use _ _ => true
  | Layer.route routeVerb _ _ => handlesMethod routeVerb verb

/-- The router's walk over its layers, `err` telling whether a decoding error
is held: a layer whose parameter fails to decode sets the error; a matching
layer is skipped while an error is held (a route does not match then, a
middleware is not an error handler); a matching route runs only for a verb it
serves.  The result lists the layers that are run, in order. -/
def chainFrom (req : Request) : Bool → List Layer → List Layer
  | _, [] => []
  | err, l :: ls =>
    match l.matchPath req.path with
    | Match.badParam => chainFrom req true ls
    | Match.no => chainFrom req err ls
    | Match.yes =>
      if err then chainFrom req err ls
      else if l.runsFor req.verb then l :: chainFrom req err ls
      else chainFrom req err ls

/-- The dispatch chain of a request: the layers run for it, in registration
order. -/
def chain (req : Request) : List Layer :=
  chainFrom req false stack

/-- The handler a request is dispatched to: that of the first registered route
whose verb and path pattern match. -/
def dispatch (req : Request) : Option Handler :=
  (chain req).findSome? Layer.handler?

/-- Does the router end up holding a parameter decoding error (answered 400
when no handler ran)? -/
def paramError (req : Request) : Bool :=
  stack.any (fun l => l.matchPath req.path == Match.badParam)

/-! ## Constants of `swaggerOptions` and `app.listen` -/

/-- The process environment: variable name to value, when set. -/
abbrev Env := String → Option String

/-- The `info` object of `swaggerOptions.swaggerDefinition` (lines 25-30). -/
structure SwaggerInfo where
  version : String
  title : String
  description : String
  servers : List String
  deriving DecidableEq, Repr

/-- The literal of lines 25-30. -/
def swaggerInfo : SwaggerInfo :=
  { version := "1.0.0"
    title := "API DOC"
    description := "Documentation for APIs"
    servers := ["http://localhost:5000"] }

/-- The port handed to `app.listen` (line 309); no environment variable is read. -/
def listenPort (_env : Env) : Nat := 5000

/-- Decimal value of a digit sequence. -/
def digitsToNat (ds : List Char) : Nat :=
  ds.foldl (fun n c => 10 * n + (c.toNat - '0'.toNat)) 0

/-- The explicit port of a URL of the form `scheme://host:port/...`, if any. -/
def urlPort (url : String) : Option Nat :=
  match splitSlash url.data with
  | _ :: [] :: authority :: _ =>
    match authority.dropWhile (fun c => c != ':') with
    | ':' :: ds => if !ds.isEmpty && ds.all Char.isDigit then some (digitsToNat ds) else none
    | _ => none
  | _ => none

/-! ## Company and user handlers

`server.js` imports these from `./api/company`, `./api/user` and `./api/db`,
which are not part of the sources at hand; they are modelled from the
specification (sections 3, 4, 6 and 7). -/

/-- A company row (specification, section 3). -/
structure Company where
  id : Int
  name : String
  email : String
  address : String
  deriving DecidableEq, Repr

/-- The JSON body of a company creation request. -/
structure CompanyInput where
  name : String
  email : String
  address : String
  deriving DecidableEq, Repr

/-- A user row (specification, section 3). -/
structure User where
  username : String
  email : String
  password : String
  deriving DecidableEq, Repr

/-- An HTTP response: status code and, on success, a JSON payload. -/
structure Response (α : Type) where
  status : Nat
  body : Option α
  deriving DecidableEq, Repr

/-- Modelled from the spec: the company table of the store behind `./api/db`
(absent from the sources).  Ids are integers, unique and assigned by the
store: `nextId` is the next id it hands out, above every id in use. -/
structure CompanyStore where
  rows : List Company
  nextId : Int
  fresh : ∀ c ∈ rows, c.id < nextId
  unique : (rows.map Company.id).Nodup

/-- Modelled from the spec: the user table of the store behind `./api/db`
(absent from the sources).  Usernames and emails are unique. -/
structure UserStore where
  rows : List User
  uniqueUsername : (rows.map User.username).Nodup
  uniqueEmail : (rows.map User.email).Nodup

/-- Modelled from the spec: a store with no company; the first id assigned is 1
(section 8, concrete scenario). -/
def emptyCompanyStore : CompanyStore :=
  { rows := []
    nextId := 1
    fresh := by simp
    unique := by simp }

/-- Modelled from the spec: `getSingleCompany` of `./api/company` (absent from
the sources), section 4.1 "Get by id": the row with that id, or NotFound (404). -/
def getSingleCompany (s : CompanyStore) (id : Int) : Response Company × CompanyStore :=
  match s.rows.find? (fun c => c.id == id) with
  | some c => ({ status := 200, body := some c }, s)
  | none => ({ status := 404, body := none }, s)

/-- Modelled from the spec: `addNewCompany` of `./api/company` (absent from the
sources), section 4.1 "Create": name, email and address are required non-empty
strings (400 otherwise, sections 6 and 7); a new row is inserted, the store
assigns its id, and the created record is returned. -/
def addNewCompany (s : CompanyStore) (inp : CompanyInput) : Response Company × CompanyStore :=
  if inp.name = "" ∨ inp.email = "" ∨ inp.address = "" then
    ({ status := 400, body := none }, s)
  else
    ({ status := 200
       body := some { id := s.nextId, name := inp.name, email := inp.email, address := inp.address } },
     { rows := s.rows ++ [{ id := s.nextId, name := inp.name, email := inp.email, address := inp.address }]
       nextId := s.nextId + 1
       fresh := by
         intro c hc
         rcases List.mem_append.mp hc with h | h
         · have := s.fresh c h
           omega
         · rw [List.mem_singleton.mp h]
           show s.nextId < s.nextId + 1
           omega
       unique := by
         rw [List.map_append, List.nodup_append]
         refine ⟨s.unique, by simp, ?_⟩
         intro a ha hb
         rcases List.mem_map.mp ha with ⟨c, hc, rfl⟩
         have h1 := s.fresh c hc
         have h2 : c.id = s.nextId := by simpa using hb
         omega })

/-- Modelled from the spec: `deleteCompany` of `./api/company` (absent from the
sources), section 4.1 "Delete": removes the matching row and reports success,
or NotFound (404) if no row matched. -/
def deleteCompany (s : CompanyStore) (id : Int) : Response Company × CompanyStore :=
  if s.rows.any (fun c => c.id == id) then
    ({ status := 200, body := none },
     { rows := s.rows.filter (fun c => c.id != id)
       nextId := s.nextId
       fresh := fun c hc => s.fresh c (List.mem_of_mem_filter hc)
       unique := (List.filter_sublist s.rows).map Company.id |>.nodup s.unique })
  else
    ({ status := 404, body := none }, s)

/-- Modelled from the spec: `login` of `./api/user` (absent from the sources),
section 4.2 "Login": look the user up by username; Unauthorized (401) if there
is none, Forbidden (403) if the stored password differs, success with the user's
name and email otherwise. -/
def login (s : UserStore) (username password : String) : Response (String × String) × UserStore :=
  match s.rows.find? (fun u => u.username == username) with
  | none => ({ status := 401, body := none }, s)
  | some u =>
    if u.password == password then ({ status := 200, body := some (u.username, u.email) }, s)
    else ({ status := 403, body := none }, s)

/-! ## Basic facts about matching -/

theorem splitSlash_of_not_mem (cs : List Char) (h : '/' ∉ cs) : splitSlash cs = [cs] := by
  induction cs with
  | nil => rfl
  | cons c cs ih =>
    have hc : c ≠ '/' := fun e => h (by simp [e])
    have hcs : '/' ∉ cs := fun e => h (by simp [e])
    simp [splitSlash, hc, ih hcs]

theorem data_ne_nil_of_ne_empty (s : String) (h : s ≠ "") : s.data ≠ [] := by
  intro e
  apply h
  cases s
  simp_all

theorem splitSlash_ne_nil (cs : List Char) : splitSlash cs ≠ [] := by
  cases cs with
  | nil => simp [splitSlash]
  | cons c cs =>
    by_cases hc : c = '/'
    · simp [splitSlash, hc]
    · cases h : splitSlash cs <;> simp [splitSlash, hc, h]

theorem splitSlash_eq_singleton_nil (cs : List Char) (h : splitSlash cs = [[]]) : cs = [] := by
  cases cs with
  | nil => rfl
  | cons c cs =>
    exfalso
    by_cases hc : c = '/'
    · simp [splitSlash, hc, splitSlash_ne_nil] at h
    · cases h2 : splitSlash cs <;> simp [splitSlash, hc, h2] at h

theorem segsMatch_nil_splitSlash (cs : List Char) (h : cs ≠ []) :
    segsMatch [] (splitSlash cs) = false := by
  cases h1 : splitSlash cs with
  | nil => exact absurd h1 (splitSlash_ne_nil cs)
  | cons seg segs =>
    cases segs with
    | nil =>
      cases seg with
      | nil => exact absurd (splitSlash_eq_singleton_nil cs h1) h
      | cons c seg => rfl
    | cons seg2 segs => cases seg <;> rfl

theorem mem_chainFrom (req : Request) (l : Layer) (ls : List Layer) (err : Bool)
    (h : l ∈ chainFrom req err ls) :
    l ∈ ls ∧ l.matchPath req.path = Match.yes ∧ l.runsFor req.verb = true := by
  induction ls generalizing err with
  | nil => simp [chainFrom] at h
  | cons x xs ih =>
    rw [chainFrom] at h
    split at h
    · have := ih _ h
      exact ⟨List.mem_cons_of_mem _ this.1, this.2⟩
    · have := ih _ h
      exact ⟨List.mem_cons_of_mem _ this.1, this.2⟩
    · rename_i hm
      split at h
      · have := ih _ h
        exact ⟨List.mem_cons_of_mem _ this.1, this.2⟩
      · split at h
        · rename_i hv
          rcases List.mem_cons.mp h with rfl | h
          · exact ⟨List.mem_cons_self _ _, hm, hv⟩
          · have := ih _ h
            exact ⟨List.mem_cons_of_mem _ this.1, this.2⟩
        · have := ih _ h
          exact ⟨List.mem_cons_of_mem _ this.1, this.2⟩

theorem dispatch_eq_none_of_routes (req : Request)
    (h : ∀ v pat hd, Layer.route v pat hd ∈ stack → handlesMethod v req.verb = true →
      pathMatch pat req.path ≠ Match.yes) :
    dispatch req = none := by
  rw [dispatch, List.findSome?_eq_none_iff]
  intro l hl
  obtain ⟨hmem, hyes, hverb⟩ := mem_chainFrom req l stack false hl
  cases l with
  | use mount mw => rfl
  | route v pat hd => exact absurd hyes (h v pat hd hmem hverb)

theorem unescape_of_no_percent (cs : List Char) (h : '%' ∉ cs) :
    unescape cs = some (cs.map Tok.char) := by
  induction cs with
  | nil => rfl
  | cons c cs ih =>
    have hc : c ≠ '%' := fun e => h (by simp [e])
    have hcs : '%' ∉ cs := fun e => h (by simp [e])
    unfold unescape
    simp [hc, ih hcs]

theorem utf8Decode_map_char (cs : List Char) :
    utf8Decode Utf8State.start (cs.map Tok.char) = some cs := by
  induction cs with
  | nil => rfl
  | cons c cs ih => simp [utf8Decode, ih]

theorem decodeParam_of_no_percent (cs : List Char) (h : '%' ∉ cs) :
    decodeParam cs = some cs := by
  unfold decodeParam
  split
  · rfl
  · simp [decodeURIComponent, unescape_of_no_percent cs h, utf8Decode_map_char]

/-! ## Dispatch of the HTTP surface -/

/-- C1, as stated, fails: `%FF` is a non-empty segment without `/`, but it is no
valid percent-encoding, so `GET /api/company/%FF` matches the pattern of
`getSingleCompany`, the parameter fails to decode, and no handler is run (the
router holds a 400 error). -/
theorem undecodable_segment_reaches_no_handler :
    "%FF" ≠ "" ∧ '/' ∉ "%FF".data ∧
    dispatch ⟨Verb.GET, "/api/company/" ++ "%FF"⟩ = none ∧
    paramError ⟨Verb.GET, "/api/company/" ++ "%FF"⟩ = true := by
  decide

/-- C1, amended: for every non-empty path segment `s` without `/` that
percent-decodes, each of the nine verb and path pairs of the HTTP surface is
dispatched to the handler registered for it. -/
theorem dispatch_http_surface (s : String) (hne : s ≠ "") (hslash : '/' ∉ s.data)
    (hdec : decodeParam s.data ≠ none) :
    dispatch ⟨Verb.GET, "/api/company"⟩ = some Handler.getAllCompanies ∧
    dispatch ⟨Verb.GET, "/api/company/" ++ s⟩ = some Handler.getSingleCompany ∧
    dispatch ⟨Verb.POST, "/api/company"⟩ = some Handler.addNewCompany ∧
    dispatch ⟨Verb.PUT, "/api/company/" ++ s⟩ = some Handler.updateCompany ∧
    dispatch ⟨Verb.DELETE, "/api/company/" ++ s⟩ = some Handler.deleteCompany ∧
    dispatch ⟨Verb.DELETE, "/api/search/company/" ++ s⟩ = some Handler.searchCompany ∧
    dispatch ⟨Verb.POST, "/api/register"⟩ = some Handler.register ∧
    dispatch ⟨Verb.POST, "/api/login"⟩ = some Handler.login ∧
    dispatch ⟨Verb.DELETE, "/api/user/" ++ s⟩ = some Handler.deleteUser := by
  have h3 := splitSlash_of_not_mem s.data hslash
  have h4 := data_ne_nil_of_ne_empty s hne
  have h5 : (decodeParam s.data).isSome = true := Option.isSome_iff_ne_none.mpr hdec
  refine ⟨by decide, ?_, by decide, ?_, ?_, ?_, by decide, by decide, ?_⟩ <;>
    simp [dispatch, chain, chainFrom, stack, Layer.matchPath, Layer.runsFor, mountMatch,
      pathMatch, matchResult, captures, handlesMethod, splitSlash, h3, compilePath, toPatSeg,
      segsMatch, prefixMatch, segMatch, eqIgnoreCase, h4, h5, Layer.handler?]

/-- Witness of C1 (amended) at the segment `a%20b`. -/
theorem dispatch_http_surface_witness :
    "a%20b" ≠ "" ∧ '/' ∉ "a%20b".data ∧ decodeParam "a%20b".data ≠ none ∧
    dispatch ⟨Verb.GET, "/api/company/" ++ "a%20b"⟩ = some Handler.getSingleCompany ∧
    dispatch ⟨Verb.DELETE, "/api/user/" ++ "a%20b"⟩ = some Handler.deleteUser :=
  have h := dispatch_http_surface "a%20b" (by decide) (by decide) (by decide)
  ⟨by decide, by decide, by decide, h.2.1, h.2.2.2.2.2.2.2.2⟩

/-- C5: a `GET` request for the search path documented by the Swagger annotation
(here with the name `acme`) reaches no handler; `searchCompany` is bound to
`DELETE` on that path. -/
theorem search_get_reaches_no_handler :
    dispatch ⟨Verb.GET, "/api/search/company/acme"⟩ = none ∧
    dispatch ⟨Verb.DELETE, "/api/search/company/acme"⟩ = some Handler.searchCompany := by
  decide

/-- C6: a `PUT` request to `/api/company`, the path documented by the Swagger
annotation, reaches no handler (only the body parser applies to it);
`updateCompany` is bound to `PUT` on `/api/company/:id`. -/
theorem put_company_reaches_no_handler :
    dispatch ⟨Verb.PUT, "/api/company"⟩ = none ∧
    chain ⟨Verb.PUT, "/api/company"⟩ = [Layer.use "/" Middleware.bodyParserJson] ∧
    dispatch ⟨Verb.PUT, "/api/company/1"⟩ = some Handler.updateCompany := by
  decide

/-- C9, as stated, fails: with the empty segment, `POST /api/company/` is the
path `/api/company` with a trailing slash and reaches `addNewCompany`; and a
`HEAD` request is served by the `GET` registration of its path. -/
theorem trailing_slash_and_head_reach_handlers :
    dispatch ⟨Verb.POST, "/api/company/" ++ ""⟩ = some Handler.addNewCompany ∧
    dispatch ⟨Verb.HEAD, "/api/company"⟩ = some Handler.getAllCompanies := by
  decide

/-- C9, amended: a request is dispatched to a handler only if its path matches
the pattern of one of the registrations of that handler and its verb is the
registered one, or `HEAD` on a `GET` registration; and for every `t` and every
non-empty `s`, `GET /api/search/company/t`, `PUT /api/company`,
`POST /api/company/s`, `GET /api/register`, `GET /api/login` and
`GET /api/user/t` reach no handler. -/
theorem dispatch_only_registered (req : Request) (h : Handler) (t s : String)
    (hd : dispatch req = some h) (hs : s ≠ "") :
    (∃ v pat, Layer.route v pat h ∈ stack ∧ pathMatch pat req.path = Match.yes ∧
      (req.verb = v ∨ (req.verb = Verb.HEAD ∧ v = Verb.GET))) ∧
    (stack.filterMap Layer.handler?).length = 9 ∧
    dispatch ⟨Verb.GET, "/api/search/company/" ++ t⟩ = none ∧
    dispatch ⟨Verb.PUT, "/api/company"⟩ = none ∧
    dispatch ⟨Verb.POST, "/api/company/" ++ s⟩ = none ∧
    dispatch ⟨Verb.GET, "/api/register"⟩ = none ∧
    dispatch ⟨Verb.GET, "/api/login"⟩ = none ∧
    dispatch ⟨Verb.GET, "/api/user/" ++ t⟩ = none := by
  have h4 := data_ne_nil_of_ne_empty s hs
  have h5 := segsMatch_nil_splitSlash s.data h4
  refine ⟨?_, by decide, ?_, by decide, ?_, by decide, by decide, ?_⟩
  · obtain ⟨l, hl, hh⟩ := List.exists_of_findSome?_eq_some hd
    obtain ⟨hmem, hyes, hverb⟩ := mem_chainFrom req l stack false hl
    cases l with
    | use mount mw => simp [Layer.handler?] at hh
    | route v pat h2 =>
      simp only [Layer.handler?, Option.some.injEq] at hh
      subst hh
      refine ⟨v, pat, hmem, hyes, ?_⟩
      simpa only [Layer.runsFor, handlesMethod, Bool.or_eq_true, Bool.and_eq_true,
        beq_iff_eq] using hverb
  all_goals
    apply dispatch_eq_none_of_routes
    intro v pat hd2 hmem hv
    simp only [stack, List.mem_cons, Layer.route.injEq, List.mem_singleton, List.not_mem_nil,
      or_false, reduceCtorEq, false_or] at hmem
    rcases hmem with ⟨rfl, rfl, rfl⟩ | ⟨rfl, rfl, rfl⟩ | ⟨rfl, rfl, rfl⟩ | ⟨rfl, rfl, rfl⟩ |
      ⟨rfl, rfl, rfl⟩ | ⟨rfl, rfl, rfl⟩ | ⟨rfl, rfl, rfl⟩ | ⟨rfl, rfl, rfl⟩ | ⟨rfl, rfl, rfl⟩ <;>
    first
      | (simp [handlesMethod] at hv; done)
      | simp [pathMatch, matchResult, splitSlash, compilePath, toPatSeg, segsMatch, segMatch,
          eqIgnoreCase, h5]

/-- Witness of C9 (amended) at `GET /api/company/7` and the segments `a/b`, `x`. -/
theorem dispatch_only_registered_witness :
    dispatch ⟨Verb.GET, "/api/company/7"⟩ = some Handler.getSingleCompany ∧ "x" ≠ "" ∧
    (∃ v pat, Layer.route v pat Handler.getSingleCompany ∈ stack ∧
      pathMatch pat "/api/company/7" = Match.yes ∧
      (Verb.GET = v ∨ (Verb.GET = Verb.HEAD ∧ v = Verb.GET))) ∧
    dispatch ⟨Verb.GET, "/api/search/company/" ++ "a/b"⟩ = none ∧
    dispatch ⟨Verb.POST, "/api/company/" ++ "x"⟩ = none :=
  have h := dispatch_only_registered ⟨Verb.GET, "/api/company/7"⟩ Handler.getSingleCompany
    "a/b" "x" (by decide) (by decide)
  ⟨by decide, by decide, h.1, h.2.2.1, h.2.2.2.2.1⟩

/-! ## Order of the dispatch chain -/

/-- C8: in the dispatch chain of a request that reaches a handler, the JSON
body parser comes before every route, in particular before the matched one;
and the chain of a request under the `/api-docs` mount starts with the two
Swagger UI middlewares, which come before the body parser. -/
theorem body_parser_precedes_handler (req : Request) (h : Handler) (docs : Request)
    (hd : dispatch req = some h) (hdocs : mountMatch "/api-docs" docs.path = Match.yes) :
    (∃ pre post, chain req = pre ++ Layer.use "/" Middleware.bodyParserJson :: post ∧
      (∀ l ∈ pre, l.handler? = none) ∧ post.findSome? Layer.handler? = some h) ∧
    chain docs = [Layer.use "/api-docs" Middleware.swaggerUiServe,
      Layer.use "/api-docs" Middleware.swaggerUiSetup,
      Layer.use "/" Middleware.bodyParserJson] := by
  have hne : ¬ ("/api-docs" = "/") := by decide
  have hcomp : compilePath "/api-docs" = [PatSeg.lit ['a', 'p', 'i', '-', 'd', 'o', 'c', 's']] := by
    decide
  have hsplit : stack = Layer.use "/api-docs" Middleware.swaggerUiServe ::
      Layer.use "/api-docs" Middleware.swaggerUiSetup ::
      Layer.use "/" Middleware.bodyParserJson :: stack.drop 3 := by decide
  have hroot : mountMatch "/" req.path = Match.yes := by simp [mountMatch]
  have hm : mountMatch "/api-docs" req.path = Match.yes ∨
      mountMatch "/api-docs" req.path = Match.no := by
    rw [mountMatch, if_neg hne, hcomp]
    split
    · rename_i segs hs
      cases segs with
      | nil => right; simp [prefixMatch, matchResult]
      | cons seg1 rest =>
        cases hp : prefixMatch [PatSeg.lit ['a', 'p', 'i', '-', 'd', 'o', 'c', 's']] (seg1 :: rest)
        · right; simp [matchResult]
        · left; simp [matchResult, captures]
    · right; rfl
  have hgen : ∀ rest : List Layer, ∃ pre,
      chainFrom req false (Layer.use "/api-docs" Middleware.swaggerUiServe ::
        Layer.use "/api-docs" Middleware.swaggerUiSetup ::
        Layer.use "/" Middleware.bodyParserJson :: rest) =
      pre ++ Layer.use "/" Middleware.bodyParserJson :: chainFrom req false rest ∧
      ∀ l ∈ pre, l.handler? = none := by
    intro rest
    rcases hm with hm | hm
    · refine ⟨[Layer.use "/api-docs" Middleware.swaggerUiServe,
        Layer.use "/api-docs" Middleware.swaggerUiSetup], ?_, ?_⟩
      · simp [chainFrom, Layer.matchPath, Layer.runsFor, hm, hroot]
      · intro l hl
        simp only [List.mem_cons, List.mem_singleton, List.not_mem_nil, or_false] at hl
        rcases hl with rfl | rfl <;> rfl
    · refine ⟨[], ?_, by simp⟩
      simp [chainFrom, Layer.matchPath, Layer.runsFor, hm, hroot]
  have hchain : ∃ pre, chain req = pre ++ Layer.use "/" Middleware.bodyParserJson ::
      chainFrom req false (stack.drop 3) ∧ ∀ l ∈ pre, l.handler? = none := by
    obtain ⟨pre, hc, hpre⟩ := hgen (stack.drop 3)
    exact ⟨pre, (congrArg (chainFrom req false) hsplit).trans hc, hpre⟩
  constructor
  · obtain ⟨pre, hc, hpre⟩ := hchain
    refine ⟨pre, _, hc, hpre, ?_⟩
    rw [dispatch, hc, List.findSome?_append, List.findSome?_eq_none_iff.mpr hpre] at hd
    simpa [Layer.handler?] using hd
  · rw [mountMatch, if_neg hne, hcomp] at hdocs
    cases hs : splitSlash docs.path.data with
    | nil => simp [hs] at hdocs
    | cons seg0 segs =>
      cases seg0 with
      | cons c cs => simp [hs] at hdocs
      | nil =>
        cases segs with
        | nil => simp [hs, prefixMatch, matchResult] at hdocs
        | cons seg1 rest =>
          have hlow : List.map Char.toLower seg1 = ['a', 'p', 'i', '-', 'd', 'o', 'c', 's'] := by
            by_contra hcon
            have hcon2 : ¬ (['a', 'p', 'i', '-', 'd', 'o', 'c', 's'] = List.map Char.toLower seg1) :=
              fun e => hcon e.symm
            simp [hs, prefixMatch, matchResult, segMatch, eqIgnoreCase, hcon2] at hdocs
          simp [chain, chainFrom, stack, Layer.matchPath, Layer.runsFor, mountMatch, pathMatch,
            matchResult, captures, handlesMethod, hs, compilePath, splitSlash, toPatSeg,
            segsMatch, prefixMatch, segMatch, eqIgnoreCase, hlow]

/-- Witness of C8 at `POST /api/login` and the documentation page `/api-docs/`. -/
theorem body_parser_precedes_handler_witness :
    dispatch ⟨Verb.POST, "/api/login"⟩ = some Handler.login ∧
    mountMatch "/api-docs" "/api-docs/" = Match.yes ∧
    (∃ pre post, chain ⟨Verb.POST, "/api/login"⟩ =
        pre ++ Layer.use "/" Middleware.bodyParserJson :: post ∧
      (∀ l ∈ pre, l.handler? = none) ∧ post.findSome? Layer.handler? = some Handler.login) ∧
    chain ⟨Verb.GET, "/api-docs/"⟩ = [Layer.use "/api-docs" Middleware.swaggerUiServe,
      Layer.use "/api-docs" Middleware.swaggerUiSetup,
      Layer.use "/" Middleware.bodyParserJson] :=
  have h := body_parser_precedes_handler ⟨Verb.POST, "/api/login"⟩ Handler.login
    ⟨Verb.GET, "/api-docs/"⟩ (by decide) (by decide)
  ⟨by decide, by decide, h.1, h.2⟩

/-! ## The listening port -/

/-- C7: the port passed to `listen` is 5000 whatever the environment, and it is
the port of the server URL declared in the Swagger definition. -/
theorem listen_port_fixed (env env' : Env) :
    listenPort env = 5000 ∧ listenPort env = listenPort env' ∧
    swaggerInfo.servers = ["http://localhost:5000"] ∧
    swaggerInfo.servers.map urlPort = [some (listenPort env)] := by
  refine ⟨rfl, rfl, rfl, ?_⟩
  show List.map urlPort swaggerInfo.servers = [some 5000]
  decide

/-! ## Login -/

/-- C2: login answers 401 exactly when no user has the username, 403 exactly
when the user with that username has another stored password, 200 exactly when
the stored password is the supplied one; the answer is always one of the three,
and the store is returned unchanged. -/
theorem login_outcomes (s : UserStore) (username password : String) :
    ((login s username password).1.status = 401 ↔ ∀ u ∈ s.rows, u.username ≠ username) ∧
    ((login s username password).1.status = 403 ↔
      ∃ u ∈ s.rows, u.username = username ∧ u.password ≠ password) ∧
    ((login s username password).1.status = 200 ↔
      ∃ u ∈ s.rows, u.username = username ∧ u.password = password) ∧
    ((login s username password).1.status = 401 ∨ (login s username password).1.status = 403 ∨
      (login s username password).1.status = 200) ∧
    (login s username password).2 = s := by
  have huniq := List.inj_on_of_nodup_map s.uniqueUsername
  unfold login
  cases hfind : s.rows.find? (fun u => u.username == username) with
  | none =>
    have hnone : ∀ u ∈ s.rows, u.username ≠ username := by
      simpa using List.find?_eq_none.mp hfind
    refine ⟨?_, ?_, ?_, ?_, ?_⟩
    · simpa using hnone
    · simp only [Nat.reduceEqDiff, false_iff, not_exists, not_and]
      intro u hu he
      exact absurd he (hnone u hu)
    · simp only [Nat.reduceEqDiff, false_iff, not_exists, not_and]
      intro u hu he
      exact absurd he (hnone u hu)
    · simp
    · rfl
  | some u =>
    have hmem : u ∈ s.rows := List.mem_of_find?_eq_some hfind
    have hname : u.username = username := by simpa using List.find?_some hfind
    have honly : ∀ v ∈ s.rows, v.username = username → v = u := fun v hv he =>
      huniq hv hmem (he.trans hname.symm)
    by_cases hp : u.password = password
    · simp only [hp, beq_self_eq_true, if_true]
      refine ⟨?_, ?_, ?_, ?_, trivial⟩
      · simp only [Nat.reduceEqDiff, false_iff, not_forall]
        exact ⟨u, hmem, fun hne => hne hname⟩
      · simp only [Nat.reduceEqDiff, false_iff, not_exists, not_and]
        intro v hv he hne
        rw [honly v hv he] at hne
        exact hne hp
      · simp only [true_iff]
        exact ⟨u, hmem, hname, hp⟩
      · simp
    · have hb : (u.password == password) = false := by simpa using hp
      simp only [hb, Bool.false_eq_true, if_false]
      refine ⟨?_, ?_, ?_, ?_, trivial⟩
      · simp only [Nat.reduceEqDiff, false_iff, not_forall]
        exact ⟨u, hmem, fun hne => hne hname⟩
      · simp only [true_iff]
        exact ⟨u, hmem, hname, hp⟩
      · simp only [Nat.reduceEqDiff, false_iff, not_exists, not_and]
        intro v hv he hpw
        rw [honly v hv he] at hpw
        exact hp hpw
      · simp

/-! ## Company create, get and delete -/

theorem find?_filter_ne_id (rows : List Company) (id j : Int) (h : j ≠ id) :
    (rows.filter (fun c => c.id != id)).find? (fun c => c.id == j) =
      rows.find? (fun c => c.id == j) := by
  induction rows with
  | nil => rfl
  | cons c rows ih =>
    by_cases hc : c.id = id
    · have hj : (c.id == j) = false := by
        simp only [beq_eq_false_iff_ne, ne_eq]
        exact fun e => h (e ▸ hc)
      have hf : (c.id != id) = false := by simp [hc]
      simp only [List.filter_cons, hf, Bool.false_eq_true, if_false, List.find?_cons, hj, ih]
    · have hf : (c.id != id) = true := by simp [hc]
      simp only [List.filter_cons, hf, if_true, List.find?_cons, ih]

/-- C3: a valid creation input is answered 200 with a record carrying the
input's name, email and address, and getting the returned id from the resulting
store answers 200 with that same record; on the empty store the Acme input is
given id 1. -/
theorem create_get_round_trip (s : CompanyStore) (inp : CompanyInput)
    (hn : inp.name ≠ "") (he : inp.email ≠ "") (ha : inp.address ≠ "") :
    (∃ c, (addNewCompany s inp).1 = { status := 200, body := some c } ∧
      c.name = inp.name ∧ c.email = inp.email ∧ c.address = inp.address ∧
      (getSingleCompany (addNewCompany s inp).2 c.id).1 = { status := 200, body := some c }) ∧
    (addNewCompany emptyCompanyStore
        { name := "Acme", email := "a@acme.com", address := "1 Main St" }).1 =
      { status := 200
        body := some { id := 1, name := "Acme", email := "a@acme.com", address := "1 Main St" } } := by
  have hv : ¬ (inp.name = "" ∨ inp.email = "" ∨ inp.address = "") := by
    rintro (h | h | h)
    · exact hn h
    · exact he h
    · exact ha h
  constructor
  · unfold addNewCompany
    rw [if_neg hv]
    refine ⟨_, rfl, rfl, rfl, rfl, ?_⟩
    have hold : s.rows.find? (fun c => c.id == s.nextId) = none := by
      rw [List.find?_eq_none]
      intro c hc
      have := s.fresh c hc
      simp only [beq_iff_eq]
      omega
    simp [getSingleCompany, List.find?_append, hold]
  · decide

/-- Witness of C3: the Acme input on the empty store. -/
theorem create_get_round_trip_witness :
    ("Acme" ≠ "" ∧ "a@acme.com" ≠ "" ∧ "1 Main St" ≠ "") ∧
    ∃ c, (addNewCompany emptyCompanyStore
        { name := "Acme", email := "a@acme.com", address := "1 Main St" }).1 =
        { status := 200, body := some c } ∧
      c.name = "Acme" ∧ c.email = "a@acme.com" ∧ c.address = "1 Main St" ∧
      (getSingleCompany (addNewCompany emptyCompanyStore
        { name := "Acme", email := "a@acme.com", address := "1 Main St" }).2 c.id).1 =
        { status := 200, body := some c } :=
  ⟨by decide,
   (create_get_round_trip emptyCompanyStore
      { name := "Acme", email := "a@acme.com", address := "1 Main St" }
      (by decide) (by decide) (by decide)).1⟩

/-- C4: deleting the id of an existing company answers 200, a get of that id
afterwards answers 404, and the companies with other ids are untouched: they
are the same rows and a get of any other id answers as before. -/
theorem delete_then_get_not_found (s : CompanyStore) (id : Int)
    (hex : ∃ c ∈ s.rows, c.id = id) :
    (deleteCompany s id).1.status = 200 ∧
    (getSingleCompany (deleteCompany s id).2 id).1.status = 404 ∧
    (∀ j, j ≠ id →
      (getSingleCompany (deleteCompany s id).2 j).1 = (getSingleCompany s j).1) ∧
    (∀ c, c.id ≠ id → (c ∈ (deleteCompany s id).2.rows ↔ c ∈ s.rows)) := by
  have hany : s.rows.any (fun c => c.id == id) = true := by
    obtain ⟨c, hc, hid⟩ := hex
    exact List.any_eq_true.mpr ⟨c, hc, by simp [hid]⟩
  unfold deleteCompany
  rw [if_pos hany]
  refine ⟨rfl, ?_, ?_, ?_⟩
  · have hgone : (s.rows.filter (fun c => c.id != id)).find? (fun c => c.id == id) = none := by
      rw [List.find?_eq_none]
      intro c hc
      have := (List.mem_filter.mp hc).2
      simpa using this
    simp only [getSingleCompany, hgone]
  · intro j hj
    simp only [getSingleCompany, find?_filter_ne_id s.rows id j hj]
    cases s.rows.find? (fun c => c.id == j) <;> rfl
  · intro c hc
    simp [List.mem_filter, hc]

/-- Witness of C4: the concrete scenario of the specification, deleting id 1
from the store that holds Acme alone. -/
theorem delete_then_get_not_found_witness :
    (∃ c ∈ (addNewCompany emptyCompanyStore
        { name := "Acme", email := "a@acme.com", address := "1 Main St" }).2.rows, c.id = 1) ∧
    (deleteCompany (addNewCompany emptyCompanyStore
        { name := "Acme", email := "a@acme.com", address := "1 Main St" }).2 1).1.status = 200 ∧
    (getSingleCompany (deleteCompany (addNewCompany emptyCompanyStore
        { name := "Acme", email := "a@acme.com", address := "1 Main St" }).2 1).2 1).1.status
      = 404 :=
  have hex : ∃ c ∈ (addNewCompany emptyCompanyStore
      { name := "Acme", email := "a@acme.com", address := "1 Main St" }).2.rows, c.id = 1 :=
    ⟨{ id := 1, name := "Acme", email := "a@acme.com", address := "1 Main St" }, by decide, rfl⟩
  have h := delete_then_get_not_found _ 1 hex
  ⟨hex, h.1, h.2.1⟩

end SwaggerNodejs
